import Mathlib

/-!
Verification of the gox platform-resolution core: the platform catalog
(platform.go) and the platform filter (the PlatformFlag file).
Go maps from platform key strings to values are embedded as
insertion-ordered association lists with unique keys; Go map assignment is
`upsert`, Go map lookup is `assocFind`.  Strings are Lean strings; a Go
byte index `v[0]` compared against an ASCII character is embedded as a
match on the head of `v.data` (these agree because the compared character
is the single-byte ASCII '!').  A Go panic (out-of-bounds string index) is
embedded as `Option.none`.  Go's byte-level string helpers (strings.Split,
strings.ToLower, strings.HasPrefix, version parsing) are embedded as
structurally recursive functions over `String.data`, which agree with the
byte-level originals on the ASCII separators and prefixes the source uses.
-/

set_option maxRecDepth 100000

/-- splitOnChar embeds Go strings.Split for a one-character separator:
splitting the empty string yields one empty field, and each separator
occurrence starts a new field. -/
def splitOnChar (sep : Char) : List Char → List (List Char)
  | [] => [[]]
  | c :: rest =>
      match splitOnChar sep rest with
      | [] => [[c]]
      | h :: t => if c = sep then [] :: h :: t else (c :: h) :: t

/-- splitString splits a string on a one-character separator, as Go
strings.Split does. -/
def splitString (s : String) (sep : Char) : List String :=
  (splitOnChar sep s.data).map (fun cs => String.mk cs)

/-- lowerString embeds Go strings.ToLower. -/
def lowerString (s : String) : String := String.mk (s.data.map Char.toLower)

/-- Platform is an OS/arch pair with a Default flag, from platform.go. -/
structure Platform where
  OS : String
  Arch : String
  Default : Bool
deriving DecidableEq

/-- Platform.str embeds the Go method Platform.String, producing "OS/Arch". -/
def Platform.str (p : Platform) : String := p.OS ++ "/" ++ p.Arch

/-- PlatMap embeds a Go `map[string]Platform`. -/
abbrev PlatMap := List (String × Platform)

/-- upsert embeds Go map assignment `m[k] = v`: overwrite the entry in place
when the key is present, append a new entry otherwise. -/
def upsert (m : PlatMap) (k : String) (v : Platform) : PlatMap :=
  if ∃ e ∈ m, e.1 = k then m.map (fun e => if e.1 = k then (k, v) else e)
  else m ++ [(k, v)]

/-- assocFind embeds Go map lookup `m[k]`. -/
def assocFind : PlatMap → String → Option Platform
  | [], _ => none
  | e :: m, k => if e.1 = k then some e.2 else assocFind m k

/-- insertKept embeds the two insertion loops of addDrop: insert each
platform under its key string, skipping platforms whose key is dropped. -/
def insertKept (dropKeys : List String) : PlatMap → List Platform → PlatMap
  | m, [] => m
  | m, p :: rest =>
      insertKept dropKeys (if p.str ∈ dropKeys then m else upsert m p.str p) rest

/-- addDrop from platform.go: all of base and add whose key string is not a
drop key, deduplicated by key string, add entries overwriting base entries. -/
def addDrop (base add drop : List Platform) : List Platform :=
  let dropKeys := drop.map Platform.str
  (insertKept dropKeys (insertKept dropKeys [] base) add).map Prod.snd

/-- Platforms_1_0 from platform.go. -/
def Platforms_1_0 : List Platform :=
  [⟨"darwin", "386", true⟩,
   ⟨"darwin", "amd64", true⟩,
   ⟨"linux", "386", true⟩,
   ⟨"linux", "amd64", true⟩,
   ⟨"linux", "arm", true⟩,
   ⟨"freebsd", "386", true⟩,
   ⟨"freebsd", "amd64", true⟩,
   ⟨"openbsd", "386", true⟩,
   ⟨"openbsd", "amd64", true⟩,
   ⟨"windows", "386", true⟩,
   ⟨"windows", "amd64", true⟩]

/-- Platforms_1_1 from platform.go. -/
def Platforms_1_1 : List Platform :=
  addDrop Platforms_1_0
    [⟨"freebsd", "arm", true⟩,
     ⟨"netbsd", "386", true⟩,
     ⟨"netbsd", "amd64", true⟩,
     ⟨"netbsd", "arm", true⟩,
     ⟨"plan9", "386", false⟩] []

/-- Platforms_1_3 from platform.go. -/
def Platforms_1_3 : List Platform :=
  addDrop Platforms_1_1
    [⟨"dragonfly", "386", false⟩,
     ⟨"dragonfly", "amd64", false⟩,
     ⟨"nacl", "amd64", false⟩,
     ⟨"nacl", "amd64p32", false⟩,
     ⟨"nacl", "arm", false⟩,
     ⟨"solaris", "amd64", false⟩] []

/-- Platforms_1_4 from platform.go. -/
def Platforms_1_4 : List Platform :=
  addDrop Platforms_1_3
    [⟨"android", "arm", false⟩,
     ⟨"plan9", "amd64", false⟩] []

/-- Platforms_1_5 from platform.go. -/
def Platforms_1_5 : List Platform :=
  addDrop Platforms_1_4
    [⟨"darwin", "arm", false⟩,
     ⟨"darwin", "arm64", false⟩,
     ⟨"linux", "arm64", false⟩,
     ⟨"linux", "ppc64", false⟩,
     ⟨"linux", "ppc64le", false⟩] []

/-- Platforms_1_6 from platform.go. -/
def Platforms_1_6 : List Platform :=
  addDrop Platforms_1_5
    [⟨"android", "386", false⟩,
     ⟨"android", "amd64", false⟩,
     ⟨"linux", "mips64", false⟩,
     ⟨"linux", "mips64le", false⟩,
     ⟨"nacl", "386", false⟩,
     ⟨"openbsd", "arm", true⟩] []

/-- Platforms_1_7 from platform.go; note the source derives it from
Platforms_1_5, not Platforms_1_6. -/
def Platforms_1_7 : List Platform :=
  addDrop Platforms_1_5
    [⟨"linux", "s390x", true⟩,
     ⟨"plan9", "arm", false⟩,
     ⟨"android", "386", false⟩,
     ⟨"android", "amd64", false⟩,
     ⟨"linux", "mips64", true⟩,
     ⟨"linux", "mips64le", true⟩,
     ⟨"nacl", "386", false⟩,
     ⟨"openbsd", "arm", true⟩] []

/-- Platforms_1_8 from platform.go. -/
def Platforms_1_8 : List Platform :=
  addDrop Platforms_1_7
    [⟨"linux", "mips", true⟩,
     ⟨"linux", "mipsle", true⟩] []

/-- Platforms_1_9 from platform.go: no new platforms in 1.9. -/
def Platforms_1_9 : List Platform := Platforms_1_8

/-- Platforms_1_10 from platform.go: dropped android/amd64. -/
def Platforms_1_10 : List Platform :=
  addDrop Platforms_1_9 [] [⟨"android", "amd64", false⟩]

/-- Platforms_1_11 from platform.go. -/
def Platforms_1_11 : List Platform :=
  addDrop Platforms_1_10 [⟨"js", "wasm", true⟩] []

/-- Platforms_1_12 from platform.go. -/
def Platforms_1_12 : List Platform :=
  addDrop Platforms_1_11
    [⟨"aix", "ppc64", false⟩,
     ⟨"windows", "arm", true⟩] []

/-- Platforms_1_13 from platform.go. -/
def Platforms_1_13 : List Platform :=
  addDrop Platforms_1_12
    [⟨"illumos", "amd64", false⟩,
     ⟨"netbsd", "arm64", true⟩,
     ⟨"openbsd", "arm64", true⟩] []

/-- Platforms_1_14 from platform.go: adds freebsd/arm64 and linux/riscv64,
drops nacl. -/
def Platforms_1_14 : List Platform :=
  addDrop Platforms_1_13
    [⟨"freebsd", "arm64", true⟩,
     ⟨"linux", "riscv64", true⟩]
    [⟨"nacl", "386", false⟩,
     ⟨"nacl", "amd64", false⟩,
     ⟨"nacl", "arm", false⟩]

/-- Platforms_1_15 from platform.go: adds android/arm64, drops darwin/386. -/
def Platforms_1_15 : List Platform :=
  addDrop Platforms_1_14
    [⟨"android", "arm64", false⟩]
    [⟨"darwin", "386", false⟩]

/-- Platforms_1_16 from platform.go. -/
def Platforms_1_16 : List Platform :=
  addDrop Platforms_1_15
    [⟨"android", "amd64", false⟩,
     ⟨"darwin", "arm64", true⟩,
     ⟨"openbsd", "mips64", false⟩] []

/-- Platforms_1_17 from platform.go. -/
def Platforms_1_17 : List Platform :=
  addDrop Platforms_1_16 [⟨"windows", "arm64", true⟩] []

/-- Platforms_1_18 from platform.go: no new platforms in 1.18. -/
def Platforms_1_18 : List Platform := Platforms_1_17

/-- Platforms_1_19 from platform.go. -/
def Platforms_1_19 : List Platform :=
  addDrop Platforms_1_18 [⟨"linux", "loong64", true⟩] []

/-- Platforms_1_20 from platform.go. -/
def Platforms_1_20 : List Platform :=
  addDrop Platforms_1_19 [⟨"freebsd", "riscv64", true⟩] []

/-- Platforms_1_21 from platform.go. -/
def Platforms_1_21 : List Platform :=
  addDrop Platforms_1_20
    [⟨"android", "386", false⟩,
     ⟨"android", "arm", false⟩] []

/-- Platforms_1_22 from platform.go. -/
def Platforms_1_22 : List Platform := addDrop Platforms_1_21 [] []

/-- Platforms_1_23 from platform.go: same as 1.22. -/
def Platforms_1_23 : List Platform := Platforms_1_22

/-- PlatformsLatest from platform.go. -/
def PlatformsLatest : List Platform := Platforms_1_23

/-- allZero tests whether every remaining version segment is zero. -/
def allZero : List Nat → Bool
  | [] => true
  | x :: xs => x = 0 && allZero xs

/-- verCmp embeds the numeric segment comparison of the go-version library
used by platform.go: segment-wise numeric comparison, missing segments
reading as zero. -/
def verCmp : List Nat → List Nat → Ordering
  | [], ys => if allZero ys then Ordering.eq else Ordering.lt
  | xs, [] => if allZero xs then Ordering.eq else Ordering.gt
  | x :: xs, y :: ys =>
      if x < y then Ordering.lt else if y < x then Ordering.gt else verCmp xs ys

/-- COp is one of the constraint operators appearing in the version ladder
of SupportedPlatforms. -/
inductive COp
  | ge
  | lt
  | le
deriving DecidableEq

/-- checkOne embeds checking one go-version constraint against the current
version. -/
def checkOne (cur : List Nat) : COp × List Nat → Bool
  | (COp.ge, b) => decide (verCmp cur b ≠ Ordering.lt)
  | (COp.lt, b) => decide (verCmp cur b = Ordering.lt)
  | (COp.le, b) => decide (verCmp cur b ≠ Ordering.gt)

/-- natOfDigits folds a list of decimal digit characters into a Nat. -/
def natOfDigits : List Char → Nat → Nat
  | [], acc => acc
  | c :: rest, acc => natOfDigits rest (acc * 10 + (c.toNat - 48))

/-- parseNatSeg parses one nonempty all-digit version segment. -/
def parseNatSeg (l : List Char) : Option Nat :=
  if l ≠ [] ∧ l.all Char.isDigit then some (natOfDigits l 0) else none

/-- parseVersion embeds the numeric fragment of go-version's NewVersion,
which is all SupportedPlatforms feeds it: a dotted sequence of decimal
numerals parses to its segment list, anything else fails. -/
def parseVersion (s : String) : Option (List Nat) :=
  let parts := splitOnChar '.' s.data
  if parts.all (fun p => (parseNatSeg p).isSome) then
    some (parts.map (fun p => (parseNatSeg p).getD 0))
  else none

/-- hasGoPrefix embeds strings.HasPrefix v "go". -/
def hasGoPrefix (v : String) : Bool :=
  match v.data with
  | 'g' :: 'o' :: _ => true
  | _ => false

/-- dropGoPrefix embeds the byte slice v[2:] after the two-byte "go" prefix
was checked. -/
def dropGoPrefix (v : String) : String := String.mk (v.data.drop 2)

/-- ladder is the fixed constraint table of SupportedPlatforms in
platform.go, in source order. -/
def ladder : List (List (COp × List Nat) × List Platform) :=
  [([(COp.le, [1, 0])], Platforms_1_0),
   ([(COp.ge, [1, 1]), (COp.lt, [1, 3])], Platforms_1_1),
   ([(COp.ge, [1, 3]), (COp.lt, [1, 4])], Platforms_1_3),
   ([(COp.ge, [1, 4]), (COp.lt, [1, 5])], Platforms_1_4),
   ([(COp.ge, [1, 5]), (COp.lt, [1, 6])], Platforms_1_5),
   ([(COp.ge, [1, 6]), (COp.lt, [1, 7])], Platforms_1_6),
   ([(COp.ge, [1, 7]), (COp.lt, [1, 8])], Platforms_1_7),
   ([(COp.ge, [1, 8]), (COp.lt, [1, 9])], Platforms_1_8),
   ([(COp.ge, [1, 9]), (COp.lt, [1, 10])], Platforms_1_9),
   ([(COp.ge, [1, 10]), (COp.lt, [1, 11])], Platforms_1_10),
   ([(COp.ge, [1, 11]), (COp.lt, [1, 12])], Platforms_1_11),
   ([(COp.ge, [1, 12]), (COp.lt, [1, 13])], Platforms_1_12),
   ([(COp.ge, [1, 13]), (COp.lt, [1, 14])], Platforms_1_13),
   ([(COp.ge, [1, 14]), (COp.lt, [1, 15])], Platforms_1_14),
   ([(COp.ge, [1, 15]), (COp.lt, [1, 16])], Platforms_1_15),
   ([(COp.ge, [1, 16]), (COp.lt, [1, 17])], Platforms_1_16),
   ([(COp.ge, [1, 17]), (COp.lt, [1, 18])], Platforms_1_17),
   ([(COp.ge, [1, 18]), (COp.lt, [1, 19])], Platforms_1_18),
   ([(COp.ge, [1, 19]), (COp.lt, [1, 20])], Platforms_1_19),
   ([(COp.ge, [1, 20]), (COp.lt, [1, 21])], Platforms_1_20),
   ([(COp.ge, [1, 21]), (COp.lt, [1, 22])], Platforms_1_21),
   ([(COp.ge, [1, 22]), (COp.lt, [1, 23])], Platforms_1_22),
   ([(COp.ge, [1, 23])], Platforms_1_23)]

/-- SupportedPlatforms from platform.go: strip the "go" prefix, parse the
remainder as a version, return the first ladder entry whose constraints
hold, defaulting to PlatformsLatest throughout. -/
def SupportedPlatforms (v : String) : List Platform :=
  if !(hasGoPrefix v) then PlatformsLatest
  else
    match parseVersion (dropGoPrefix v) with
    | none => PlatformsLatest
    | some cur =>
        match ladder.find? (fun e => e.1.all (checkOne cur)) with
        | some e => e.2
        | none => PlatformsLatest

/-- PlatformFlag tracks the raw os, arch, and os/arch flag values, as in
the source. -/
structure PlatformFlag where
  OS : List String
  Arch : List String
  OSArch : List Platform
deriving DecidableEq

/-- ParsedSets holds the six inclusion/exclusion maps that Platforms builds
from the flag lists, embedded as duplicate-free key lists in the source's
declaration order. -/
structure ParsedSets where
  ignoreArch : List String
  includeArch : List String
  ignoreOS : List String
  includeOS : List String
  ignoreOSArch : List String
  includeOSArch : List String
deriving DecidableEq

/-- setInsert embeds Go `m[k] = true` on a set-valued map. -/
def setInsert (m : List String) (k : String) : List String :=
  if k ∈ m then m else m ++ [k]

/-- parseStringTokens embeds the arch and OS parsing loops of Platforms: a
token whose first byte is the negation marker goes to the ignore set
stripped of the marker, any other token to the include set; indexing into
an empty token is a panic, embedded as none. -/
def parseStringTokens : List String → List String → List String →
    Option (List String × List String)
  | [], ig, inc => some (ig, inc)
  | v :: rest, ig, inc =>
      match v.data with
      | [] => none
      | c :: cs =>
          if c = '!' then parseStringTokens rest (setInsert ig (String.mk cs)) inc
          else parseStringTokens rest ig (setInsert inc v)

/-- parsePairTokens embeds the OS/Arch pair parsing loop of Platforms: a
pair whose OS first byte is the negation marker records the stripped pair
key in the ignore set, any other pair its key in the include set; indexing
into an empty OS is a panic, embedded as none. -/
def parsePairTokens : List Platform → List String → List String →
    Option (List String × List String)
  | [], ig, inc => some (ig, inc)
  | v :: rest, ig, inc =>
      match v.OS.data with
      | [] => none
      | c :: cs =>
          if c = '!' then
            parsePairTokens rest
              (setInsert ig (Platform.str (Platform.mk (String.mk cs) v.Arch false))) inc
          else parsePairTokens rest ig (setInsert inc v.str)

/-- parseFlags runs the three parsing loops of Platforms in source order. -/
def parseFlags (p : PlatformFlag) : Option ParsedSets :=
  match parseStringTokens p.Arch [] [] with
  | none => none
  | some (igA, incA) =>
      match parseStringTokens p.OS [] [] with
      | none => none
      | some (igO, incO) =>
          match parsePairTokens p.OSArch [] [] with
          | none => none
          | some (igP, incP) => some ⟨igA, incA, igO, incO, igP, incP⟩

/-- supportedLookup embeds building the supported map keyed by platform
string and looking a key up: on duplicate keys the last insertion wins. -/
def supportedLookup : List Platform → String → Option Platform
  | [], _ => none
  | q :: rest, key =>
      match supportedLookup rest key with
      | some r => some r
      | none => if q.str = key then some q else none

/-- candidates embeds the four-way branch of Platforms that picks the
candidate result set: explicit pairs, OS times arch combinations, all
architectures of included OSes, or the defaults. -/
def candidates (s : ParsedSets) (supported : List Platform) : List Platform :=
  if s.includeOSArch ≠ [] then
    s.includeOSArch.filterMap (fun key =>
      match supportedLookup supported key with
      | some plat =>
          if key ∈ s.ignoreOSArch then none
          else some (Platform.mk plat.OS plat.Arch false)
      | none => none)
  else if s.includeOS ≠ [] ∧ s.includeArch ≠ [] then
    s.includeOS.flatMap (fun o =>
      s.includeArch.filterMap (fun a =>
        if (supportedLookup supported (Platform.str (Platform.mk o a false))).isSome then
          some (Platform.mk o a false)
        else none))
  else if s.includeOS ≠ [] then
    s.includeOS.flatMap (fun o =>
      (supported.filter (fun q => decide (q.OS = o))).map
        (fun q => Platform.mk q.OS q.Arch false))
  else
    (supported.filter (fun q => q.Default)).map (fun q => Platform.mk q.OS q.Arch false)

/-- exclusionPass embeds the final filtering loop of Platforms: drop pair
excludes, OS and arch excludes, and, when no pair includes exist, anything
missing from a nonempty OS or arch include set. -/
def exclusionPass (s : ParsedSets) (cands : List Platform) : List Platform :=
  cands.filter (fun plat =>
    decide (plat.str ∉ s.ignoreOSArch ∧
      plat.OS ∉ s.ignoreOS ∧ plat.Arch ∉ s.ignoreArch ∧
      (s.includeOSArch ≠ [] ∨ s.includeOS = [] ∨ plat.OS ∈ s.includeOS) ∧
      (s.includeOSArch ≠ [] ∨ s.includeArch = [] ∨ plat.Arch ∈ s.includeArch)))

/-- resolve is the candidate selection followed by the exclusion pass. -/
def resolve (s : ParsedSets) (supported : List Platform) : List Platform :=
  exclusionPass s (candidates s supported)

/-- Platforms embeds PlatformFlag.Platforms: parse the flag lists, pick the
candidates, apply the exclusion pass; none embeds a parsing panic. -/
def PlatformFlag.Platforms (p : PlatformFlag) (supported : List Platform) :
    Option (List Platform) :=
  (parseFlags p).map (fun s => resolve s supported)

/-- appendIfMissingString embeds appendStringValue.appendIfMissing. -/
def appendIfMissingString (s : List String) (value : String) : List String :=
  if value ∈ s then s else s ++ [value]

/-- setStringTokens embeds the token loop of appendStringValue.Set:
nonempty tokens are lower-cased and appended if missing. -/
def setStringTokens : List String → List String → List String
  | s, [] => s
  | s, v :: rest =>
      if v ≠ "" then setStringTokens (appendIfMissingString s (lowerString v)) rest
      else setStringTokens s rest

/-- appendStringValueSet embeds appendStringValue.Set, which always
returns a nil error. -/
def appendStringValueSet (s : List String) (value : String) :
    Except String (List String) :=
  Except.ok (setStringTokens s (splitString value ' '))

/-- appendPlatformIfMissing embeds appendPlatformValue.appendIfMissing. -/
def appendPlatformIfMissing (s : List Platform) (value : Platform) : List Platform :=
  if value ∈ s then s else s ++ [value]

/-- setPlatformTokens embeds the token loop of appendPlatformValue.Set: a
token splitting into exactly two parts on the separator is lower-cased and
appended if missing, any other token aborts with the validation error. -/
def setPlatformTokens : List Platform → List String → Except String (List Platform)
  | s, [] => Except.ok s
  | s, v :: rest =>
      match splitString v '/' with
      | [osPart, archPart] =>
          setPlatformTokens
            (appendPlatformIfMissing s
              (Platform.mk (lowerString osPart) (lowerString archPart) false)) rest
      | _ => Except.error ("Invalid platform syntax: " ++ v ++ " should be os/arch")

/-- appendPlatformValueSet embeds appendPlatformValue.Set. -/
def appendPlatformValueSet (s : List Platform) (value : String) :
    Except String (List Platform) :=
  if value = "" then Except.ok s
  else setPlatformTokens s (splitString value ' ')

/-- supportedLookup only returns platforms of the list, under their key. -/
theorem supportedLookup_eq_some {l : List Platform} {k : String} {p : Platform}
    (h : supportedLookup l k = some p) : p ∈ l ∧ p.str = k := by
  induction l with
  | nil => simp [supportedLookup] at h
  | cons q rest ih =>
      rw [supportedLookup] at h
      rcases hr : supportedLookup rest k with _ | r
      · rw [hr] at h
        by_cases hq : q.str = k
        · simp [hq] at h
          subst h
          exact ⟨List.mem_cons_self q rest, hq⟩
        · simp [hq] at h
      · rw [hr] at h
        simp at h
        subst h
        obtain ⟨hm, hs⟩ := ih hr
        exact ⟨List.mem_cons_of_mem q hm, hs⟩

/-- supportedLookup finds a key exactly when some platform carries it. -/
theorem supportedLookup_isSome {l : List Platform} {k : String} :
    (supportedLookup l k).isSome = true ↔ ∃ q ∈ l, q.str = k := by
  induction l with
  | nil => simp [supportedLookup]
  | cons q rest ih =>
      rw [supportedLookup]
      rcases hr : supportedLookup rest k with _ | r
      · rw [hr] at ih
        simp at ih
        by_cases hq : q.str = k
        · simp [hq]
        · simp [hq]
          exact ih
      · rw [hr] at ih
        simp at ih ⊢
        obtain ⟨w, hw, hws⟩ := ih
        exact Or.inr ⟨w, hw, hws⟩

/-- Membership in the exclusion pass unfolds to the five conditions of the
final loop of Platforms. -/
theorem mem_exclusionPass {s : ParsedSets} {cands : List Platform} {q : Platform} :
    q ∈ exclusionPass s cands ↔
      q ∈ cands ∧ q.str ∉ s.ignoreOSArch ∧
      q.OS ∉ s.ignoreOS ∧ q.Arch ∉ s.ignoreArch ∧
      (s.includeOSArch ≠ [] ∨ s.includeOS = [] ∨ q.OS ∈ s.includeOS) ∧
      (s.includeOSArch ≠ [] ∨ s.includeArch = [] ∨ q.Arch ∈ s.includeArch) := by
  simp [exclusionPass, List.mem_filter]

/-- With no OS and no pair includes the candidate branch is the defaults
branch, whatever the arch include set holds. -/
theorem candidates_defaults {s : ParsedSets} {supported : List Platform}
    (h1 : s.includeOS = []) (h3 : s.includeOSArch = []) :
    candidates s supported =
      (supported.filter (fun q => q.Default)).map
        (fun q => Platform.mk q.OS q.Arch false) := by
  simp [candidates, h1, h3]

/-- With pair includes present the candidate branch is the pair branch. -/
theorem candidates_pairs {s : ParsedSets} {supported : List Platform}
    (h : s.includeOSArch ≠ []) :
    candidates s supported =
      s.includeOSArch.filterMap (fun key =>
        match supportedLookup supported key with
        | some plat =>
            if key ∈ s.ignoreOSArch then none
            else some (Platform.mk plat.OS plat.Arch false)
        | none => none) := by
  simp [candidates, h]

/-- With only OS includes the candidate branch collects every supported
platform of an included OS. -/
theorem candidates_os {s : ParsedSets} {supported : List Platform}
    (h1 : s.includeOS ≠ []) (h2 : s.includeArch = []) (h3 : s.includeOSArch = []) :
    candidates s supported =
      s.includeOS.flatMap (fun o =>
        (supported.filter (fun q => decide (q.OS = o))).map
          (fun q => Platform.mk q.OS q.Arch false)) := by
  simp [candidates, h1, h2, h3]

/-- C1: the claim expects SupportedPlatforms "go0.9" to fall back to the
newest snapshot, but "go0.9" parses and matches the first ladder constraint
"<= 1.0", so the oldest snapshot Platforms_1_0 is returned; js/wasm is in
the newest snapshot but not in the returned one. -/
theorem C1_counterexample :
    SupportedPlatforms "go0.9" = Platforms_1_0 ∧
    Platform.mk "js" "wasm" true ∈ PlatformsLatest ∧
    Platform.mk "js" "wasm" true ∉ SupportedPlatforms "go0.9" :=
  ⟨rfl, by decide, by decide⟩

/-- C1 amended: SupportedPlatforms "go1.16" contains darwin/arm64 with
Default set, SupportedPlatforms "nonsense" is the newest snapshot, and
SupportedPlatforms "go0.9" is the oldest snapshot Platforms_1_0 rather
than the newest. -/
theorem C1_amended :
    Platform.mk "darwin" "arm64" true ∈ SupportedPlatforms "go1.16" ∧
    SupportedPlatforms "nonsense" = PlatformsLatest ∧
    SupportedPlatforms "go0.9" = Platforms_1_0 :=
  ⟨by decide, rfl, rfl⟩

/-- C2: the claim expects a lone negation marker to be reported as an
error, but the flag parser accepts "!" with a nil error and Platforms
resolves the flag without failing, silently consuming the token. -/
theorem C2_counterexample :
    appendStringValueSet [] "!" = Except.ok ["!"] ∧
    (PlatformFlag.mk ["!"] [] []).Platforms [Platform.mk "linux" "amd64" true] =
      some [Platform.mk "linux" "amd64" false] :=
  ⟨rfl, rfl⟩

/-- C2 amended: a token consisting only of the negation marker is never
reported as an error: appendStringValue.Set always returns a nil error,
Platforms on a flag holding "!" succeeds for every snapshot, and the token
is consumed as an exclusion of the empty OS name. -/
theorem C2_amended :
    (∀ prev value, (appendStringValueSet prev value).isOk = true) ∧
    (∀ supported : List Platform,
      ((PlatformFlag.mk ["!"] [] []).Platforms supported).isSome = true) ∧
    parseFlags (PlatformFlag.mk ["!"] [] []) =
      some (ParsedSets.mk [] [] [""] [] [] []) :=
  ⟨fun _ _ => rfl, fun _ => rfl, rfl⟩

/-- C4: the claim expects Platforms never to panic on flag lists populated
through the Set methods, but the pair token "/amd64" is accepted by
appendPlatformValue.Set with an empty OS side, and Platforms then indexes
the empty OS string, a panic, embedded here as none. -/
theorem C4_counterexample :
    appendPlatformValueSet [] "/amd64" = Except.ok [Platform.mk "" "amd64" false] ∧
    (PlatformFlag.mk [] [] [Platform.mk "" "amd64" false]).Platforms [] = none :=
  ⟨rfl, rfl⟩

/-- C6: the claim reads addDrop as a union keyed by the (OS, Arch) pair,
but the code keys by the canonical string, so two different identities
whose canonical strings collide (the separator occurring inside a name)
merge: the base entry (OS "a/b", Arch "c") disappears although no drop
names it. -/
theorem C6_counterexample :
    addDrop [Platform.mk "a/b" "c" true] [Platform.mk "a" "b/c" false] [] =
      [Platform.mk "a" "b/c" false] ∧
    Platform.mk "a/b" "c" true ∉
      addDrop [Platform.mk "a/b" "c" true] [Platform.mk "a" "b/c" false] [] ∧
    ∀ q ∈ addDrop [Platform.mk "a/b" "c" true] [Platform.mk "a" "b/c" false] [],
      ¬(q.OS = "a/b" ∧ q.Arch = "c") := by
  refine ⟨rfl, by decide, by decide⟩

/-- C7: with osIncludes {linux} the result holds every supported linux
platform, and adding archExcludes {arm} drops linux/arm, on the
three-platform snapshot of the claim. -/
theorem C7_theorem :
    (PlatformFlag.mk ["linux"] [] []).Platforms
        [Platform.mk "linux" "amd64" true, Platform.mk "linux" "arm" true,
         Platform.mk "darwin" "amd64" true] =
      some [Platform.mk "linux" "amd64" false, Platform.mk "linux" "arm" false] ∧
    (PlatformFlag.mk ["linux"] ["!arm"] []).Platforms
        [Platform.mk "linux" "amd64" true, Platform.mk "linux" "arm" true,
         Platform.mk "darwin" "amd64" true] =
      some [Platform.mk "linux" "amd64" false] :=
  ⟨rfl, rfl⟩

/-- C5: with no include filters parsed at all, the candidate set Platforms
builds before its exclusion pass is exactly the Default-flagged snapshot
platforms with the flag cleared, and with no excludes either that is the
returned result. -/
theorem C5_theorem (p : PlatformFlag) (s : ParsedSets) (hp : parseFlags p = some s)
    (h1 : s.includeOS = []) (h2 : s.includeArch = []) (h3 : s.includeOSArch = [])
    (supported : List Platform) :
    p.Platforms supported = some (resolve s supported) ∧
    candidates s supported =
      (supported.filter (fun q => q.Default)).map
        (fun q => Platform.mk q.OS q.Arch false) ∧
    (s.ignoreOS = [] → s.ignoreArch = [] → s.ignoreOSArch = [] →
      p.Platforms supported =
        some ((supported.filter (fun q => q.Default)).map
          (fun q => Platform.mk q.OS q.Arch false))) := by
  have hplat : p.Platforms supported = some (resolve s supported) := by
    simp [PlatformFlag.Platforms, hp]
  have hc := @candidates_defaults s supported h1 h3
  refine ⟨hplat, hc, fun g1 g2 g3 => ?_⟩
  rw [hplat]
  simp only [Option.some.injEq]
  rw [resolve, hc]
  unfold exclusionPass
  apply List.filter_eq_self.mpr
  intro a _
  simp [g1, g2, g3, h1, h2]

/-- C5 witness: the spec example, a two-platform snapshot with one Default
entry and an empty filter request. -/
theorem C5_witness :
    (PlatformFlag.mk [] [] []).Platforms
        [Platform.mk "darwin" "amd64" true, Platform.mk "android" "arm" false] =
      some [Platform.mk "darwin" "amd64" false] := by
  have h := (C5_theorem (PlatformFlag.mk [] [] []) (ParsedSets.mk [] [] [] [] [] [])
    rfl rfl rfl rfl
    [Platform.mk "darwin" "amd64" true, Platform.mk "android" "arm" false]).2.2
    rfl rfl rfl
  exact h.trans (by decide)

/-- C10: with only arch includes parsed (no OS and no pair includes), the
result is exactly the Default-flagged snapshot platforms whose arch is
included, minus any excludes: the arch restriction is applied only in the
exclusion pass over the defaults branch. -/
theorem C10_theorem (p : PlatformFlag) (s : ParsedSets) (hp : parseFlags p = some s)
    (h1 : s.includeOS = []) (h2 : s.includeOSArch = []) (h3 : s.includeArch ≠ [])
    (supported : List Platform) :
    p.Platforms supported = some (resolve s supported) ∧
    ∀ q, q ∈ resolve s supported ↔
      ((∃ r ∈ supported, r.Default = true ∧ Platform.mk r.OS r.Arch false = q) ∧
       q.Arch ∈ s.includeArch ∧
       q.str ∉ s.ignoreOSArch ∧ q.OS ∉ s.ignoreOS ∧ q.Arch ∉ s.ignoreArch) := by
  refine ⟨by simp [PlatformFlag.Platforms, hp], fun q => ?_⟩
  rw [resolve, candidates_defaults h1 h2, mem_exclusionPass]
  simp only [List.mem_map, List.mem_filter]
  constructor
  · rintro ⟨⟨r, ⟨hr, hd⟩, hq⟩, a1, a2, a3, _, a5⟩
    rcases a5 with bad | bad | ok
    · exact absurd h2 bad
    · exact absurd bad h3
    · exact ⟨⟨r, hr, hd, hq⟩, ok, a1, a2, a3⟩
  · rintro ⟨⟨r, hr, hd, hq⟩, hA, a1, a2, a3⟩
    exact ⟨⟨r, ⟨hr, hd⟩, hq⟩, a1, a2, a3,
      Or.inr (Or.inl h1), Or.inr (Or.inr hA)⟩

/-- C10 witness: with archIncludes {amd64} on a three-platform snapshot the
default platform linux/amd64 is kept. -/
theorem C10_witness :
    Platform.mk "linux" "amd64" false ∈
      resolve (ParsedSets.mk [] ["amd64"] [] [] [] [])
        [Platform.mk "linux" "amd64" true, Platform.mk "linux" "arm" true,
         Platform.mk "darwin" "amd64" false] := by
  have h := (C10_theorem (PlatformFlag.mk [] ["amd64"] [])
      (ParsedSets.mk [] ["amd64"] [] [] [] []) rfl rfl rfl (by decide)
      [Platform.mk "linux" "amd64" true, Platform.mk "linux" "arm" true,
       Platform.mk "darwin" "amd64" false]).2 (Platform.mk "linux" "amd64" false)
  exact h.mpr (by decide)

/-- C3: the claim omits that the exclusion pass still applies the OS and
arch excludes in the pair branch: with pairIncludes {linux/amd64} and an
OS exclude list {linux}, the included, supported, not pair-excluded pair
linux/amd64 is still dropped, so the result is empty rather than the
included pair set. -/
theorem C3_counterexample :
    (PlatformFlag.mk ["!linux"] [] [Platform.mk "linux" "amd64" false]).Platforms
      [Platform.mk "linux" "amd64" true] = some [] ∧
    parseFlags (PlatformFlag.mk ["!linux"] [] [Platform.mk "linux" "amd64" false]) =
      some (ParsedSets.mk [] [] ["linux"] [] [] ["linux/amd64"]) :=
  ⟨rfl, rfl⟩

/-- C3 amended: with pair includes present the result is exactly the
included pairs that are supported, not pair-excluded, and whose OS and
arch are not individually excluded; the OS and arch include lists still
have no effect on the result. -/
theorem C3_amended (p : PlatformFlag) (s : ParsedSets) (hp : parseFlags p = some s)
    (h : s.includeOSArch ≠ []) (supported : List Platform) :
    p.Platforms supported = some (resolve s supported) ∧
    (∀ q, q ∈ resolve s supported ↔
      (q.str ∈ s.includeOSArch ∧ q.str ∉ s.ignoreOSArch ∧
       q.OS ∉ s.ignoreOS ∧ q.Arch ∉ s.ignoreArch ∧ q.Default = false ∧
       ∃ b, supportedLookup supported q.str = some (Platform.mk q.OS q.Arch b))) ∧
    (∀ osInc archInc,
      resolve (ParsedSets.mk s.ignoreArch archInc s.ignoreOS osInc
        s.ignoreOSArch s.includeOSArch) supported = resolve s supported) := by
  refine ⟨by simp [PlatformFlag.Platforms, hp], fun q => ?_, fun osInc archInc => ?_⟩
  · rw [resolve, candidates_pairs h, mem_exclusionPass]
    obtain ⟨qOS, qArch, qD⟩ := q
    constructor
    · rintro ⟨hc, a1, a2, a3, -, -⟩
      rw [List.mem_filterMap] at hc
      obtain ⟨key, hkey, hf⟩ := hc
      rcases hlk : supportedLookup supported key with _ | plat
      · rw [hlk] at hf
        simp at hf
      · rw [hlk] at hf
        dsimp only at hf
        by_cases hig : key ∈ s.ignoreOSArch
        · rw [if_pos hig] at hf
          cases hf
        · rw [if_neg hig] at hf
          obtain ⟨-, hps⟩ := supportedLookup_eq_some hlk
          injection hf with hf
          injection hf with h1 h2 h3
          subst h1
          subst h2
          subst h3
          have hqs : (Platform.mk plat.OS plat.Arch false).str = key := by
            rw [← hps]
            rfl
          refine ⟨hqs ▸ hkey, a1, a2, a3, rfl, plat.Default, ?_⟩
          rw [hqs, hlk]
    · rintro ⟨hkey, a1, a2, a3, hdef, b, hlk⟩
      subst hdef
      refine ⟨?_, a1, a2, a3, Or.inl h, Or.inl h⟩
      rw [List.mem_filterMap]
      refine ⟨(Platform.mk qOS qArch false).str, hkey, ?_⟩
      rw [hlk]
      simp [a1]
  · have hc : candidates (ParsedSets.mk s.ignoreArch archInc s.ignoreOS osInc
        s.ignoreOSArch s.includeOSArch) supported = candidates s supported := by
      rw [@candidates_pairs (ParsedSets.mk s.ignoreArch archInc s.ignoreOS osInc
        s.ignoreOSArch s.includeOSArch) supported h, candidates_pairs h]
    rw [resolve, resolve, hc]
    unfold exclusionPass
    apply List.filter_congr
    intro x _
    simp only [decide_eq_decide]
    simp [h]

/-- C3 witness: the spec example, pairIncludes {linux/amd64, darwin/amd64}
with pairExcludes {darwin/amd64}, keeps linux/amd64. -/
theorem C3_witness :
    Platform.mk "linux" "amd64" false ∈
      resolve (ParsedSets.mk [] [] [] [] ["darwin/amd64"]
          ["linux/amd64", "darwin/amd64"])
        [Platform.mk "linux" "amd64" true, Platform.mk "darwin" "amd64" true] := by
  have h := (C3_amended
      (PlatformFlag.mk [] [] [Platform.mk "linux" "amd64" false,
        Platform.mk "darwin" "amd64" false, Platform.mk "!darwin" "amd64" false])
      (ParsedSets.mk [] [] [] [] ["darwin/amd64"] ["linux/amd64", "darwin/amd64"])
      rfl (by decide)
      [Platform.mk "linux" "amd64" true, Platform.mk "darwin" "amd64" true]).2.1
      (Platform.mk "linux" "amd64" false)
  exact h.mpr (by decide)

/-- A nonempty string has a nonempty character list. -/
theorem string_data_ne_nil {v : String} (h : v ≠ "") : v.data ≠ [] := by
  intro e
  exact h (String.ext (e.trans rfl))

/-- Lower-casing keeps a token nonempty. -/
theorem lowerString_ne_empty {v : String} (h : v ≠ "") : lowerString v ≠ "" := by
  intro e
  apply string_data_ne_nil h
  have hd : (lowerString v).data = v.data.map Char.toLower := rfl
  rw [e] at hd
  exact (List.map_eq_nil_iff.mp hd.symm)

/-- Membership after appendIfMissing comes from the list or the new value. -/
theorem mem_appendIfMissingString {s : List String} {x v : String}
    (h : x ∈ appendIfMissingString s v) : x ∈ s ∨ x = v := by
  unfold appendIfMissingString at h
  split at h
  · exact Or.inl h
  · rcases List.mem_append.mp h with hs | hx
    · exact Or.inl hs
    · exact Or.inr (List.mem_singleton.mp hx)

/-- The string token loop never records an empty token. -/
theorem setStringTokens_no_empty {ts s : List String} (h : "" ∉ s) :
    "" ∉ setStringTokens s ts := by
  induction ts generalizing s with
  | nil => exact h
  | cons v rest ih =>
      rw [setStringTokens]
      by_cases hv : v ≠ ""
      · rw [if_pos hv]
        apply ih
        intro hm
        rcases mem_appendIfMissingString hm with hs | hx
        · exact h hs
        · exact lowerString_ne_empty hv hx.symm
      · rw [if_neg hv]
        exact ih h

/-- The arch and OS parsing loops cannot panic on nonempty tokens. -/
theorem parseStringTokens_isSome {l ig inc : List String} (h : "" ∉ l) :
    (parseStringTokens l ig inc).isSome = true := by
  induction l generalizing ig inc with
  | nil => rfl
  | cons v rest ih =>
      have hv : v ≠ "" := by
        intro e
        exact h (e ▸ List.mem_cons_self v rest)
      obtain ⟨c, cs, hd⟩ := List.exists_cons_of_ne_nil (string_data_ne_nil hv)
      have hrest : "" ∉ rest := fun hm => h (List.mem_cons_of_mem v hm)
      rw [parseStringTokens, hd]
      dsimp only
      by_cases hc : c = '!'
      · rw [if_pos hc]
        exact ih hrest
      · rw [if_neg hc]
        exact ih hrest

/-- The pair parsing loop cannot panic when every pair OS is nonempty. -/
theorem parsePairTokens_isSome {l : List Platform} {ig inc : List String}
    (h : ∀ q ∈ l, q.OS ≠ "") :
    (parsePairTokens l ig inc).isSome = true := by
  induction l generalizing ig inc with
  | nil => rfl
  | cons v rest ih =>
      have hv : v.OS ≠ "" := h v (List.mem_cons_self v rest)
      obtain ⟨c, cs, hd⟩ := List.exists_cons_of_ne_nil (string_data_ne_nil hv)
      have hrest : ∀ q ∈ rest, q.OS ≠ "" := fun q hq => h q (List.mem_cons_of_mem v hq)
      rw [parsePairTokens, hd]
      dsimp only
      by_cases hc : c = '!'
      · rw [if_pos hc]
        exact ih hrest
      · rw [if_neg hc]
        exact ih hrest

/-- parseFlags cannot panic when all tokens are nonempty where indexed. -/
theorem parseFlags_isSome {p : PlatformFlag} (h1 : "" ∉ p.OS) (h2 : "" ∉ p.Arch)
    (h3 : ∀ q ∈ p.OSArch, q.OS ≠ "") : (parseFlags p).isSome = true := by
  unfold parseFlags
  rcases hA : parseStringTokens p.Arch [] [] with _ | ⟨igA, incA⟩
  · have := @parseStringTokens_isSome p.Arch [] [] h2
    rw [hA] at this
    cases this
  · rcases hO : parseStringTokens p.OS [] [] with _ | ⟨igO, incO⟩
    · have := @parseStringTokens_isSome p.OS [] [] h1
      rw [hO] at this
      cases this
    · rcases hP : parsePairTokens p.OSArch [] [] with _ | ⟨igP, incP⟩
      · have := @parsePairTokens_isSome p.OSArch [] [] h3
        rw [hP] at this
        cases this
      · simp

/-- Platforms cannot panic when plain tokens are nonempty and pair OS
sides are nonempty. -/
theorem platforms_total {p : PlatformFlag} {supported : List Platform}
    (h1 : "" ∉ p.OS) (h2 : "" ∉ p.Arch) (h3 : ∀ q ∈ p.OSArch, q.OS ≠ "") :
    (p.Platforms supported).isSome = true := by
  unfold PlatformFlag.Platforms
  rcases hf : parseFlags p with _ | s
  · have := parseFlags_isSome h1 h2 h3
    rw [hf] at this
    cases this
  · simp

/-- C4 amended: Platforms never panics for flag lists whose plain OS and
Arch tokens are nonempty and whose pair entries have a nonempty OS side;
the string Set method only stores nonempty tokens, so the plain lists are
safe, but the pair Set method accepts "/amd64" with an empty OS side and
Platforms then panics on it, as the counterexample shows. -/
theorem C4_amended :
    (∀ prev value l, appendStringValueSet prev value = Except.ok l →
      "" ∉ prev → "" ∉ l) ∧
    (∀ (p : PlatformFlag) (supported : List Platform), "" ∉ p.OS → "" ∉ p.Arch →
      (∀ q ∈ p.OSArch, q.OS ≠ "") → (p.Platforms supported).isSome = true) := by
  constructor
  · intro prev value l heq hprev
    have hl : l = setStringTokens prev (splitString value ' ') := by
      unfold appendStringValueSet at heq
      injection heq with heq
      exact heq.symm
    rw [hl]
    exact setStringTokens_no_empty hprev
  · intro p supported h1 h2 h3
    exact platforms_total h1 h2 h3

/-- C4 witness: a flag with nonempty tokens resolves without panicking,
and the string Set method keeps the token lists free of empty tokens. -/
theorem C4_witness :
    "" ∉ ["linux", "windows"] ∧
    ((PlatformFlag.mk ["linux"] [] []).Platforms
      [Platform.mk "linux" "amd64" true]).isSome = true :=
  ⟨C4_amended.1 ["linux"] "windows" ["linux", "windows"] rfl (by decide),
   C4_amended.2 (PlatformFlag.mk ["linux"] [] []) [Platform.mk "linux" "amd64" true]
     (by decide) (by decide) (by decide)⟩

/-- The pair token loop fails exactly when a token does not split into two
parts on the separator. -/
theorem setPlatformTokens_err_iff {s : List Platform} {ts : List String} :
    (setPlatformTokens s ts).isOk = false ↔
      ∃ v ∈ ts, (splitString v '/').length ≠ 2 := by
  induction ts generalizing s with
  | nil => simp [setPlatformTokens, Except.isOk, Except.toBool]
  | cons v rest ih =>
      rw [setPlatformTokens]
      rcases hs : splitString v '/' with _ | ⟨o, _ | ⟨a, _ | ⟨c, t⟩⟩⟩
      · dsimp only
        simp only [Except.isOk, Except.toBool]
        constructor
        · intro _
          exact ⟨v, List.mem_cons_self v rest, by rw [hs]; simp⟩
        · intro _
          trivial
      · dsimp only
        simp only [Except.isOk, Except.toBool]
        constructor
        · intro _
          exact ⟨v, List.mem_cons_self v rest, by rw [hs]; simp⟩
        · intro _
          trivial
      · dsimp only
        rw [ih]
        constructor
        · rintro ⟨w, hw, hl⟩
          exact ⟨w, List.mem_cons_of_mem v hw, hl⟩
        · rintro ⟨w, hw, hl⟩
          rcases List.mem_cons.mp hw with rfl | hw2
          · rw [hs] at hl
            simp at hl
          · exact ⟨w, hw2, hl⟩
      · dsimp only
        simp only [Except.isOk, Except.toBool]
        constructor
        · intro _
          exact ⟨v, List.mem_cons_self v rest, by rw [hs]; simp⟩
        · intro _
          trivial

/-- A pair token loop error names the first offending token. -/
theorem setPlatformTokens_err_msg {s : List Platform} {ts : List String}
    {msg : String} (h : setPlatformTokens s ts = Except.error msg) :
    ∃ v ∈ ts, (splitString v '/').length ≠ 2 ∧
      msg = "Invalid platform syntax: " ++ v ++ " should be os/arch" := by
  induction ts generalizing s with
  | nil => simp [setPlatformTokens] at h
  | cons v rest ih =>
      rw [setPlatformTokens] at h
      rcases hs : splitString v '/' with _ | ⟨o, _ | ⟨a, _ | ⟨c, t⟩⟩⟩ <;> rw [hs] at h <;> dsimp only at h
      · injection h with h
        exact ⟨v, List.mem_cons_self v rest, by rw [hs]; simp, h.symm⟩
      · injection h with h
        exact ⟨v, List.mem_cons_self v rest, by rw [hs]; simp, h.symm⟩
      · obtain ⟨w, hw, hl, hm⟩ := ih h
        exact ⟨w, List.mem_cons_of_mem v hw, hl, hm⟩
      · injection h with h
        exact ⟨v, List.mem_cons_self v rest, by rw [hs]; simp, h.symm⟩

/-- C8: parsing a pair flag value fails exactly when some space-separated
token does not split into exactly two parts on the separator, and the
error names the offending token; an empty value and empty OS or arch
tokens are accepted silently; the string flag parser never fails;
resolution cannot fail on well-formed tokens and an empty result set is
returned as a valid result. -/
theorem C8_theorem :
    (∀ prev value, (appendPlatformValueSet prev value).isOk = false ↔
      value ≠ "" ∧ ∃ v ∈ splitString value ' ', (splitString v '/').length ≠ 2) ∧
    (∀ prev value msg, appendPlatformValueSet prev value = Except.error msg →
      ∃ v ∈ splitString value ' ', (splitString v '/').length ≠ 2 ∧
        msg = "Invalid platform syntax: " ++ v ++ " should be os/arch") ∧
    (∀ prev, appendStringValueSet prev "" = Except.ok prev) ∧
    (∀ prev value, (appendStringValueSet prev value).isOk = true) ∧
    (∀ (p : PlatformFlag) (supported : List Platform), "" ∉ p.OS → "" ∉ p.Arch →
      (∀ q ∈ p.OSArch, q.OS ≠ "") → (p.Platforms supported).isSome = true) ∧
    ((PlatformFlag.mk ["solaris"] [] []).Platforms
      [Platform.mk "linux" "amd64" true] = some []) := by
  refine ⟨fun prev value => ?_, fun prev value msg h => ?_, fun _ => rfl, fun _ _ => rfl,
    fun p supported h1 h2 h3 => platforms_total h1 h2 h3, rfl⟩
  · unfold appendPlatformValueSet
    by_cases hv : value = ""
    · rw [if_pos hv]
      simp [Except.isOk, Except.toBool, hv]
    · rw [if_neg hv]
      rw [setPlatformTokens_err_iff]
      simp [hv]
  · unfold appendPlatformValueSet at h
    by_cases hv : value = ""
    · rw [if_pos hv] at h
      cases h
    · rw [if_neg hv] at h
      exact setPlatformTokens_err_msg h

/-- C8 witness: the spec example token "linuxamd64" is rejected with the
error naming it, and a well-formed flag resolves without failure. -/
theorem C8_witness :
    ((appendPlatformValueSet [] "linuxamd64").isOk = false) ∧
    (∃ v ∈ splitString "linuxamd64" ' ', (splitString v '/').length ≠ 2 ∧
      "Invalid platform syntax: linuxamd64 should be os/arch" =
        "Invalid platform syntax: " ++ v ++ " should be os/arch") ∧
    ((PlatformFlag.mk ["solaris"] [] []).Platforms
      [Platform.mk "linux" "amd64" true]).isSome = true :=
  ⟨(C8_theorem.1 [] "linuxamd64").mpr (by decide),
   C8_theorem.2.1 [] "linuxamd64"
     "Invalid platform syntax: linuxamd64 should be os/arch" rfl,
   C8_theorem.2.2.2.2.1 (PlatformFlag.mk ["solaris"] [] [])
     [Platform.mk "linux" "amd64" true] (by decide) (by decide) (by decide)⟩

/-- A key that lookup misses belongs to no entry. -/
theorem assocFind_eq_none {m : PlatMap} {k : String} (h : assocFind m k = none) :
    ∀ e ∈ m, e.1 ≠ k := by
  induction m with
  | nil => intro e he; cases he
  | cons e m ih =>
      rw [assocFind] at h
      by_cases he : e.1 = k
      · rw [if_pos he] at h
        cases h
      · rw [if_neg he] at h
        intro x hx
        rcases List.mem_cons.mp hx with rfl | hx2
        · exact he
        · exact ih h x hx2

/-- A successful lookup returns an entry of the map under its key. -/
theorem assocFind_mem {m : PlatMap} {k : String} {v : Platform}
    (h : assocFind m k = some v) : (k, v) ∈ m := by
  induction m with
  | nil => cases h
  | cons e m ih =>
      rw [assocFind] at h
      by_cases he : e.1 = k
      · rw [if_pos he] at h
        injection h with h
        exact List.mem_cons.mpr (Or.inl (by rw [← he, ← h]))
      · rw [if_neg he] at h
        exact List.mem_cons_of_mem e (ih h)

/-- Lookup after appending a fresh entry at the back. -/
theorem assocFind_append_single (m : PlatMap) (k k' : String) (v : Platform) :
    assocFind (m ++ [(k, v)]) k' =
      match assocFind m k' with
      | some w => some w
      | none => if k = k' then some v else none := by
  induction m with
  | nil => rfl
  | cons e m ih =>
      simp only [List.cons_append, assocFind]
      by_cases he : e.1 = k'
      · rw [if_pos he, if_pos he]
      · rw [if_neg he, if_neg he]
        exact ih

/-- Lookup after the in-place replacement loop of upsert. -/
theorem assocFind_replace (m : PlatMap) (k k' : String) (v : Platform) :
    assocFind (m.map (fun e => if e.1 = k then (k, v) else e)) k' =
      if k' = k then
        match assocFind m k with
        | some _ => some v
        | none => none
      else assocFind m k' := by
  induction m with
  | nil =>
      simp only [List.map_nil, assocFind]
      split <;> rfl
  | cons e m ih =>
      by_cases hk : k' = k
      · subst hk
        by_cases he : e.1 = k' <;> simp [assocFind, he, ih]
      · have hk2 : ¬k = k' := fun e' => hk e'.symm
        by_cases he : e.1 = k <;> simp [assocFind, he, hk, hk2, ih]

/-- Lookup after a Go map assignment: the assigned key now maps to the
assigned value, all other keys are unchanged. -/
theorem assocFind_upsert (m : PlatMap) (k k' : String) (v : Platform) :
    assocFind (upsert m k v) k' = if k' = k then some v else assocFind m k' := by
  unfold upsert
  by_cases hex : ∃ e ∈ m, e.1 = k
  · rw [if_pos hex, assocFind_replace]
    by_cases hk : k' = k
    · rw [if_pos hk, if_pos hk]
      rcases hf : assocFind m k with _ | w
      · obtain ⟨e, hem, hek⟩ := hex
        exact absurd hek (assocFind_eq_none hf e hem)
      · rfl
    · rw [if_neg hk, if_neg hk]
  · rw [if_neg hex, assocFind_append_single]
    by_cases hk : k' = k
    · subst hk
      rcases hf : assocFind m k' with _ | w
      · simp
      · exact absurd ⟨(k', w), assocFind_mem hf, rfl⟩ hex
    · have hkk : ¬k = k' := fun e => hk e.symm
      rcases hf : assocFind m k' with _ | w
      · simp [hk, hkk]
      · simp [hk]

/-- lastKept picks the last platform of a list with the given key string
that is not dropped, matching the overwrite behaviour of map insertion. -/
def lastKept (dropKeys : List String) (k : String) : List Platform → Option Platform
  | [] => none
  | p :: rest =>
      match lastKept dropKeys k rest with
      | some q => some q
      | none => if p.str = k ∧ p.str ∉ dropKeys then some p else none

/-- Lookup after an insertion loop: the last kept platform of the inserted
list wins, and otherwise the original map answers. -/
theorem assocFind_insertKept (dk : List String) (l : List Platform) (m : PlatMap)
    (k : String) :
    assocFind (insertKept dk m l) k =
      match lastKept dk k l with
      | some q => some q
      | none => assocFind m k := by
  induction l generalizing m with
  | nil => rfl
  | cons p rest ih =>
      rw [insertKept, lastKept]
      rw [ih]
      rcases hl : lastKept dk k rest with _ | q
      · by_cases hd : p.str ∈ dk
        · have hc : ¬(p.str = k ∧ p.str ∉ dk) := fun hc => hc.2 hd
          rw [if_pos hd, if_neg hc]
        · rw [if_neg hd, assocFind_upsert]
          by_cases hpk : p.str = k
          · have hkp : k = p.str := hpk.symm
            rw [if_pos hkp, if_pos (And.intro hpk hd)]
          · have hkp : ¬k = p.str := fun e => hpk e.symm
            have hc : ¬(p.str = k ∧ p.str ∉ dk) := fun hc => hpk hc.1
            rw [if_neg hc, if_neg hkp]
      · rfl

/-- Entries after a map assignment come from the map or are the assigned
entry. -/
theorem mem_upsert {m : PlatMap} {k : String} {v : Platform} {e : String × Platform}
    (h : e ∈ upsert m k v) : e ∈ m ∨ e = (k, v) := by
  unfold upsert at h
  split at h
  · rcases List.mem_map.mp h with ⟨e0, he0, hf⟩
    by_cases h0 : e0.1 = k
    · rw [if_pos h0] at hf
      exact Or.inr hf.symm
    · rw [if_neg h0] at hf
      exact Or.inl (hf ▸ he0)
  · rcases List.mem_append.mp h with hm | hx
    · exact Or.inl hm
    · exact Or.inr (List.mem_singleton.mp hx)

/-- Entries after an insertion loop come from the map or are kept inserted
platforms under their key. -/
theorem mem_insertKept {dk : List String} {l : List Platform} {m : PlatMap}
    {e : String × Platform} (h : e ∈ insertKept dk m l) :
    e ∈ m ∨ ∃ p, p ∈ l ∧ e = (p.str, p) ∧ p.str ∉ dk := by
  induction l generalizing m with
  | nil => exact Or.inl h
  | cons p rest ih =>
      rw [insertKept] at h
      rcases ih h with hm | ⟨q, hq, he, hqd⟩
      · by_cases hd : p.str ∈ dk
        · rw [if_pos hd] at hm
          exact Or.inl hm
        · rw [if_neg hd] at hm
          rcases mem_upsert hm with hm2 | he
          · exact Or.inl hm2
          · exact Or.inr ⟨p, List.mem_cons_self p rest, he, hd⟩
      · exact Or.inr ⟨q, List.mem_cons_of_mem p hq, he, hqd⟩

/-- Map assignment preserves pairwise distinct keys. -/
theorem upsert_keysDistinct {m : PlatMap} {k : String} {v : Platform}
    (h : m.Pairwise (fun a b => a.1 ≠ b.1)) :
    (upsert m k v).Pairwise (fun a b => a.1 ≠ b.1) := by
  unfold upsert
  by_cases hex : ∃ e ∈ m, e.1 = k
  · rw [if_pos hex, List.pairwise_map]
    have hkey : ∀ a : String × Platform, (if a.1 = k then (k, v) else a).1 = a.1 := by
      intro a
      by_cases ha : a.1 = k
      · rw [if_pos ha, ha]
      · rw [if_neg ha]
    refine h.imp ?_
    intro a b hab
    show (if a.1 = k then (k, v) else a).1 ≠ (if b.1 = k then (k, v) else b).1
    rw [hkey a, hkey b]
    exact hab
  · rw [if_neg hex, List.pairwise_append]
    refine ⟨h, by simp, ?_⟩
    intro a ha b hb
    rw [List.mem_singleton.mp hb]
    intro e
    exact hex ⟨a, ha, e⟩

/-- The insertion loop preserves pairwise distinct keys. -/
theorem insertKept_keysDistinct {dk : List String} {l : List Platform} {m : PlatMap}
    (h : m.Pairwise (fun a b => a.1 ≠ b.1)) :
    (insertKept dk m l).Pairwise (fun a b => a.1 ≠ b.1) := by
  induction l generalizing m with
  | nil => exact h
  | cons p rest ih =>
      rw [insertKept]
      apply ih
      by_cases hd : p.str ∈ dk
      · rw [if_pos hd]
        exact h
      · rw [if_neg hd]
        exact upsert_keysDistinct h

/-- Two entries of a distinct-key map sharing a key are the same entry. -/
theorem eq_of_keys_eq {m : PlatMap} (h : m.Pairwise (fun a b => a.1 ≠ b.1))
    {e1 e2 : String × Platform} (h1 : e1 ∈ m) (h2 : e2 ∈ m) (hk : e1.1 = e2.1) :
    e1 = e2 := by
  induction m with
  | nil => cases h1
  | cons e m ih =>
      rcases List.pairwise_cons.mp h with ⟨hhead, htail⟩
      rcases List.mem_cons.mp h1 with rfl | h1m
      · rcases List.mem_cons.mp h2 with rfl | h2m
        · rfl
        · exact absurd hk (hhead e2 h2m)
      · rcases List.mem_cons.mp h2 with rfl | h2m
        · exact absurd hk.symm (hhead e1 h1m)
        · exact ih htail h1m h2m

/-- A kept last platform is a kept member with the key. -/
theorem lastKept_eq_some {dk : List String} {k : String} {l : List Platform}
    {q : Platform} (h : lastKept dk k l = some q) :
    q ∈ l ∧ q.str = k ∧ q.str ∉ dk := by
  induction l with
  | nil => cases h
  | cons p rest ih =>
      rw [lastKept] at h
      rcases hl : lastKept dk k rest with _ | w
      · rw [hl] at h
        dsimp only at h
        by_cases hc : p.str = k ∧ p.str ∉ dk
        · rw [if_pos hc] at h
          injection h with h
          subst h
          exact ⟨List.mem_cons_self p rest, hc.1, hc.2⟩
        · rw [if_neg hc] at h
          cases h
      · rw [hl] at h
        injection h with h
        subst h
        obtain ⟨hm, hs, hd⟩ := ih hl
        exact ⟨List.mem_cons_of_mem p hm, hs, hd⟩

/-- A kept member with the key guarantees a last kept platform exists. -/
theorem lastKept_isSome {dk : List String} {k : String} {l : List Platform}
    {p : Platform} (hm : p ∈ l) (hs : p.str = k) (hd : p.str ∉ dk) :
    (lastKept dk k l).isSome = true := by
  induction l with
  | nil => cases hm
  | cons q rest ih =>
      rw [lastKept]
      rcases hl : lastKept dk k rest with _ | w
      · dsimp only
        rcases List.mem_cons.mp hm with rfl | hm2
        · rw [if_pos ⟨hs, hd⟩]
          rfl
        · have := ih hm2
          rw [hl] at this
          cases this
      · rfl

/-- When the key appears in the list exactly once, that entry is the last
kept platform. -/
theorem lastKept_unique {dk : List String} {k : String} {l : List Platform}
    {p : Platform} (hm : p ∈ l) (hs : p.str = k) (hd : p.str ∉ dk)
    (hu : ∀ r ∈ l, r.str = k → r = p) :
    lastKept dk k l = some p := by
  induction l with
  | nil => cases hm
  | cons q rest ih =>
      rw [lastKept]
      rcases hl : lastKept dk k rest with _ | w
      · dsimp only
        rcases List.mem_cons.mp hm with rfl | hm2
        · rw [if_pos ⟨hs, hd⟩]
        · have := lastKept_isSome hm2 hs hd
          rw [hl] at this
          cases this
      · obtain ⟨hwm, hws, -⟩ := lastKept_eq_some hl
        rw [hu w (List.mem_cons_of_mem q hwm) hws]

/-- Every addDrop result entry comes from base or add and is not dropped. -/
theorem mem_addDrop {base add drop : List Platform} {q : Platform}
    (h : q ∈ addDrop base add drop) :
    (q ∈ base ∨ q ∈ add) ∧ q.str ∉ drop.map Platform.str := by
  unfold addDrop at h
  dsimp only at h
  rcases List.mem_map.mp h with ⟨e, he, hsnd⟩
  rcases mem_insertKept he with hinner | ⟨p, hp, hep, hpd⟩
  · rcases mem_insertKept hinner with hnil | ⟨p, hp, hep, hpd⟩
    · cases hnil
    · rw [hep] at hsnd
      dsimp only at hsnd
      subst hsnd
      exact ⟨Or.inl hp, hpd⟩
  · rw [hep] at hsnd
    dsimp only at hsnd
    subst hsnd
    exact ⟨Or.inr hp, hpd⟩

/-- Every undropped base or add platform is represented in the addDrop
result under its key string. -/
theorem addDrop_key_exists {base add drop : List Platform} {p : Platform}
    (hp : p ∈ base ∨ p ∈ add) (hd : p.str ∉ drop.map Platform.str) :
    ∃ q ∈ addDrop base add drop, q.str = p.str := by
  unfold addDrop
  dsimp only
  have hfind := assocFind_insertKept (drop.map Platform.str) add
    (insertKept (drop.map Platform.str) [] base) p.str
  rcases hla : lastKept (drop.map Platform.str) p.str add with _ | w
  · have hfind2 := assocFind_insertKept (drop.map Platform.str) base [] p.str
    rcases hlb : lastKept (drop.map Platform.str) p.str base with _ | w2
    · rcases hp with hb | ha
      · have := lastKept_isSome hb rfl hd
        rw [hlb] at this
        cases this
      · have := lastKept_isSome ha rfl hd
        rw [hla] at this
        cases this
    · have hsome : assocFind (insertKept (drop.map Platform.str)
          (insertKept (drop.map Platform.str) [] base) add) p.str = some w2 := by
        rw [hfind, hla]
        dsimp only
        rw [hfind2, hlb]
      obtain ⟨hwm, hws, -⟩ := lastKept_eq_some hlb
      exact ⟨w2, List.mem_map.mpr ⟨(p.str, w2), assocFind_mem hsome, rfl⟩, hws⟩
  · have hsome : assocFind (insertKept (drop.map Platform.str)
        (insertKept (drop.map Platform.str) [] base) add) p.str = some w := by
      rw [hfind, hla]
    obtain ⟨hwm, hws, -⟩ := lastKept_eq_some hla
    exact ⟨w, List.mem_map.mpr ⟨(p.str, w), assocFind_mem hsome, rfl⟩, hws⟩

/-- Every entry of the addDrop working map carries its key string. -/
theorem addDrop_map_wf {base add drop : List Platform} :
    ∀ e ∈ insertKept (drop.map Platform.str)
      (insertKept (drop.map Platform.str) [] base) add, e.1 = e.2.str := by
  intro e he
  rcases mem_insertKept he with hi | ⟨p, -, rfl, -⟩
  · rcases mem_insertKept hi with hnil | ⟨p, -, rfl, -⟩
    · cases hnil
    · rfl
  · rfl

/-- Two addDrop result entries with the same key string are equal. -/
theorem addDrop_str_inj {base add drop : List Platform} {q1 q2 : Platform}
    (h1 : q1 ∈ addDrop base add drop) (h2 : q2 ∈ addDrop base add drop)
    (hk : q1.str = q2.str) : q1 = q2 := by
  unfold addDrop at h1 h2
  dsimp only at h1 h2
  rcases List.mem_map.mp h1 with ⟨e1, he1, hs1⟩
  rcases List.mem_map.mp h2 with ⟨e2, he2, hs2⟩
  have hkeys : (insertKept (drop.map Platform.str)
      (insertKept (drop.map Platform.str) [] base) add).Pairwise
      (fun a b => a.1 ≠ b.1) :=
    insertKept_keysDistinct (insertKept_keysDistinct List.Pairwise.nil)
  have he12 : e1 = e2 := by
    apply eq_of_keys_eq hkeys he1 he2
    rw [addDrop_map_wf e1 he1, addDrop_map_wf e2 he2, hs1, hs2, hk]
  rw [← hs1, ← hs2, he12]

/-- An add platform whose key is unique within add and not dropped appears
itself in the addDrop result. -/
theorem addDrop_add_wins {base add drop : List Platform} {pa : Platform}
    (hm : pa ∈ add) (hu : ∀ r ∈ add, r.str = pa.str → r = pa)
    (hd : pa.str ∉ drop.map Platform.str) :
    pa ∈ addDrop base add drop := by
  have hl := lastKept_unique hm rfl hd hu
  have hsome : assocFind (insertKept (drop.map Platform.str)
      (insertKept (drop.map Platform.str) [] base) add) pa.str = some pa := by
    rw [assocFind_insertKept, hl]
  unfold addDrop
  dsimp only
  exact List.mem_map.mpr ⟨(pa.str, pa), assocFind_mem hsome, rfl⟩

/-- The addDrop result never repeats a key string. -/
theorem addDrop_noDupStr (base add drop : List Platform) :
    (addDrop base add drop).Pairwise (fun p q => p.str ≠ q.str) := by
  unfold addDrop
  dsimp only
  rw [List.pairwise_map]
  have hkeys : (insertKept (drop.map Platform.str)
      (insertKept (drop.map Platform.str) [] base) add).Pairwise
      (fun a b => a.1 ≠ b.1) :=
    insertKept_keysDistinct (insertKept_keysDistinct List.Pairwise.nil)
  refine hkeys.imp_of_mem ?_
  intro a b ha hb hab
  rw [addDrop_map_wf a ha, addDrop_map_wf b hb] at hab
  exact hab

/-- The addDrop result never repeats an (OS, Arch) identity. -/
theorem addDrop_noDupIdent (base add drop : List Platform) :
    (addDrop base add drop).Pairwise
      (fun p q => ¬(p.OS = q.OS ∧ p.Arch = q.Arch)) := by
  refine (addDrop_noDupStr base add drop).imp ?_
  intro p q hs hI
  exact hs (by simp [Platform.str, hI.1, hI.2])

/-- C6 amended: keyed by the canonical string "OS/Arch" rather than by the
(OS, Arch) pair directly, addDrop is exactly base union add minus the drop
keys, with one entry per key, and an add entry whose key is unique within
add and not dropped appears in the result itself, carrying its Default
flag. -/
theorem C6_amended (base add drop : List Platform) :
    (∀ q ∈ addDrop base add drop,
      (q ∈ base ∨ q ∈ add) ∧ q.str ∉ drop.map Platform.str) ∧
    (∀ p, (p ∈ base ∨ p ∈ add) → p.str ∉ drop.map Platform.str →
      ∃ q ∈ addDrop base add drop, q.str = p.str) ∧
    (∀ q1 ∈ addDrop base add drop, ∀ q2 ∈ addDrop base add drop,
      q1.str = q2.str → q1 = q2) ∧
    (∀ pa ∈ add, (∀ r ∈ add, r.str = pa.str → r = pa) →
      pa.str ∉ drop.map Platform.str → pa ∈ addDrop base add drop) :=
  ⟨fun _ hq => mem_addDrop hq,
   fun _ hp hd => addDrop_key_exists hp hd,
   fun _ h1 _ h2 hk => addDrop_str_inj h1 h2 hk,
   fun _ hm hu hd => addDrop_add_wins hm hu hd⟩

/-- C6 witness: an identity occurring in both base and add survives as one
entry carrying the add entry's Default flag. -/
theorem C6_witness :
    Platform.mk "linux" "amd64" false ∈
      addDrop [Platform.mk "linux" "amd64" true]
        [Platform.mk "linux" "amd64" false] [] :=
  (C6_amended [Platform.mk "linux" "amd64" true]
      [Platform.mk "linux" "amd64" false] []).2.2.2
    (Platform.mk "linux" "amd64" false) (by decide) (by decide) (by decide)

/-- distinctIdent states that a snapshot holds no two entries with the
same (OS, Arch) identity. -/
def distinctIdent (l : List Platform) : Prop :=
  l.Pairwise (fun p q => ¬(p.OS = q.OS ∧ p.Arch = q.Arch))

/-- C9: addDrop preserves the no-duplicate invariant for any inputs, and
every snapshot of the historical ladder satisfies it. -/
theorem C9_theorem :
    (∀ base add drop : List Platform, distinctIdent (addDrop base add drop)) ∧
    distinctIdent Platforms_1_0 ∧ distinctIdent Platforms_1_1 ∧
    distinctIdent Platforms_1_3 ∧ distinctIdent Platforms_1_4 ∧
    distinctIdent Platforms_1_5 ∧ distinctIdent Platforms_1_6 ∧
    distinctIdent Platforms_1_7 ∧ distinctIdent Platforms_1_8 ∧
    distinctIdent Platforms_1_9 ∧ distinctIdent Platforms_1_10 ∧
    distinctIdent Platforms_1_11 ∧ distinctIdent Platforms_1_12 ∧
    distinctIdent Platforms_1_13 ∧ distinctIdent Platforms_1_14 ∧
    distinctIdent Platforms_1_15 ∧ distinctIdent Platforms_1_16 ∧
    distinctIdent Platforms_1_17 ∧ distinctIdent Platforms_1_18 ∧
    distinctIdent Platforms_1_19 ∧ distinctIdent Platforms_1_20 ∧
    distinctIdent Platforms_1_21 ∧ distinctIdent Platforms_1_22 ∧
    distinctIdent Platforms_1_23 ∧ distinctIdent PlatformsLatest :=
  ⟨fun b a d => addDrop_noDupIdent b a d,
   by unfold distinctIdent; decide,
   addDrop_noDupIdent _ _ _, addDrop_noDupIdent _ _ _, addDrop_noDupIdent _ _ _,
   addDrop_noDupIdent _ _ _, addDrop_noDupIdent _ _ _, addDrop_noDupIdent _ _ _,
   addDrop_noDupIdent _ _ _, addDrop_noDupIdent _ _ _, addDrop_noDupIdent _ _ _,
   addDrop_noDupIdent _ _ _, addDrop_noDupIdent _ _ _, addDrop_noDupIdent _ _ _,
   addDrop_noDupIdent _ _ _, addDrop_noDupIdent _ _ _, addDrop_noDupIdent _ _ _,
   addDrop_noDupIdent _ _ _, addDrop_noDupIdent _ _ _, addDrop_noDupIdent _ _ _,
   addDrop_noDupIdent _ _ _, addDrop_noDupIdent _ _ _, addDrop_noDupIdent _ _ _,
   addDrop_noDupIdent _ _ _, addDrop_noDupIdent _ _ _⟩
